/-
Verification of the AiApply outreach-acquisition pipeline.

Shallow embedding of the pure logic of:
  - FindEmailWorkFlowV2.py  (is_email_okay_to_send, filter_contacts)
  - EmailFinderUsingClaude.py (email_score / selection, the JSON decoding part of
    askClaudeToFindCompanies, and the acquisition loop of main)
  - SimpleEmailer.py (send_bulk_emails)
  - models.py (get_contacted_domains)

Modelling conventions:
  - Python `set` objects are modelled as `List String`; the code only ever
    queries them through membership, inserts elements, and takes unions, so a
    list with `∈` / cons / append is an exact model of the observable behaviour.
  - Python strings are Lean `String`s; `str.split(sep)` is re-implemented
    character by character below (`pysplit`) with Python semantics.
  - External I/O (the Anthropic call, the Hunter HTTP call, SMTP, json.loads)
    is abstracted as oracle parameters; everything after the I/O boundary is
    translated from the source.
-/
import Mathlib

set_option linter.unusedVariables false

namespace AiApply

/-! ## Python string primitives -/

/-- Auxiliary for `pysplit`: walk the characters, cutting at each separator.
`acc` holds the current (reversed) segment. -/
def splitChAux (sep : Char) : List Char → List Char → List (List Char)
  | [], acc => [acc.reverse]
  | c :: cs, acc =>
    if c == sep then acc.reverse :: splitChAux sep cs []
    else splitChAux sep cs (c :: acc)

/-- Python `s.split(sep)` for a one-character separator: always returns at
least one segment; a separator occurrence ends the current segment. -/
def pysplit (s : String) (sep : Char) : List String :=
  (splitChAux sep s.data []).map (fun cs => String.mk cs)

/-- Python `'@' in s`. -/
def hasAt (s : String) : Bool :=
  s.data.any (fun c => c == '@')

/-- Python `s.split('@')[1]` (the text between the first and the second `'@'`,
or everything after the `'@'` when there is exactly one).  The Python
expression raises when `s` has no `'@'`; every use in the source is guarded by
`'@' in s`, and under that guard the segment at index 1 exists, so the default
of `getD` is never hit at a call site. -/
def pySeg1 (s : String) : String :=
  (pysplit s '@').getD 1 ""

/-- Number of `'@'` characters in `s` (used to state the spec's
"exactly one `'@'`" wording). -/
def countAt (s : String) : Nat :=
  s.data.countP (fun c => c == '@')

/-- Modelled from the spec: the claims gloss "domain" as "the substring after
the first `'@'`" — everything after the first `'@'`, later `'@'`s included.
This is the spec-side notion, to be compared with the code's `pySeg1`. -/
def suffixAfterFirstAt (s : String) : String :=
  String.mk ((s.data.dropWhile (fun c => !(c == '@'))).drop 1)

/-! ## FindEmailWorkFlowV2.py -/

/-- A contact record as produced by enrichment: keys `company_name`,
`contact_name` (nullable) and `email_address`. -/
structure Contact where
  company_name : String
  contact_name : Option String
  email_address : String
deriving DecidableEq

/-- `FindEmailWorkFlowV2.is_email_okay_to_send`: reject when `'@'` is absent,
otherwise admit iff `email.split('@')[1]` is not an already-contacted domain. -/
def is_email_okay_to_send (email : String) (domains : List String) : Bool :=
  if !(hasAt email) then false
  else
    let domain := pySeg1 email
    !(domains.contains domain)

/-- `FindEmailWorkFlowV2.filter_contacts`: accumulate, in input order, the
contacts whose email address passes `is_email_okay_to_send`.  (The
`user_emails_sent` argument is accepted and ignored, as in the source.) -/
def filter_contacts (contacts : List Contact)
    (user_emails_sent user_domains_contacted : List String) : List Contact :=
  contacts.foldl
    (fun cleaned contact =>
      if is_email_okay_to_send contact.email_address user_domains_contacted then
        cleaned ++ [contact]
      else cleaned)
    []

/-! ## EmailFinderUsingClaude.py — the acquisition loop of `main`

The two network calls inside the loop body (`askClaudeToFindCompanies` and
`enrichCompaniesWithHunter`) are abstracted as an oracle `resp : Nat → Batch`
giving, for each attempt number, the company list the discovery call returned
and the contact list the enrichment call returned for it.  Everything else is
a direct translation of lines 450–551 of the source.  Each collected contact
carries a ghost `Nat` recording the attempt on which it was appended; `main`
itself only ever sees the `Contact` projection. -/

/-- One `{company_name, domain}` entry from company discovery. -/
structure Company where
  company_name : String
  domain : String
deriving DecidableEq

/-- The responses the two external calls produce on one attempt. -/
structure Batch where
  companies : List Company
  contacts : List Contact

/-- The session-local state of the loop: `all_unique_contacts` (with ghost
attempt tags), `session_emails` and `session_domains`. -/
structure SessionState where
  collected : List (Contact × Nat)
  sessE : List String
  sessD : List String
deriving DecidableEq

/-- The `for contact in cleaned_contacts` body: stop once `num_emails`
contacts are held, otherwise append the contact, record its address, and
record its domain.  The source computes
`domain = email.split('@')[1] if '@' in email else None` and guards the
insert with `if domain:`, so both `None` (no `'@'`) and the empty string (an
address ending in `'@'`) are skipped. -/
def addContacts (N a : Nat) : List Contact → SessionState → SessionState
  | [], st => st
  | c :: rest, st =>
    if st.collected.length ≥ N then st
    else
      let st1 : SessionState :=
        { collected := st.collected ++ [(c, a)]
          sessE := c.email_address :: st.sessE
          sessD :=
            if hasAt c.email_address && !(pySeg1 c.email_address == "") then
              pySeg1 c.email_address :: st.sessD
            else st.sessD }
      addContacts N a rest st1

/-- The `while len(all_unique_contacts) < num_emails and attempt < max_attempts`
loop.  `fuel` is the remaining attempt budget (`max_attempts - attempt`), so the
guard `attempt < max_attempts` is exactly `fuel > 0`.  Returns the final state
and the final value of `attempt`. -/
def loopAux (N : Nat) (resp : Nat → Batch) (userE userD : List String) :
    Nat → Nat → SessionState → SessionState × Nat
  | 0, attempt, st => (st, attempt)
  | fuel + 1, attempt, st =>
    if st.collected.length < N then
      let a := attempt + 1
      let b := resp a
      if b.companies.length = 0 then (st, a)
      else if b.contacts.length = 0 then loopAux N resp userE userD fuel a st
      else
        let combinedE := userE ++ st.sessE
        let combinedD := userD ++ st.sessD
        let cleaned := filter_contacts b.contacts combinedE combinedD
        if cleaned.length = 0 then loopAux N resp userE userD fuel a st
        else
          let st1 := addContacts N a cleaned st
          if st1.collected.length ≥ N then (st1, a)
          else loopAux N resp userE userD fuel a st1
    else (st, attempt)

/-- The acquisition part of `main`: merge the user history with the legacy
Excel history (both oracle inputs), run the loop from the empty session, and
return the tagged collected contacts together with the final attempt count. -/
def mainContactsTagged (N A : Nat) (resp : Nat → Batch)
    (userE userD excelE excelD : List String) : List (Contact × Nat) × Nat :=
  let uE := userE ++ excelE
  let uD := userD ++ excelD
  let r := loopAux N resp uE uD A 0 ⟨[], [], []⟩
  (r.1.collected, r.2)

/-- `final_contacts = all_unique_contacts[:num_emails]`, with the ghost tags
projected away, plus the final attempt count. -/
def mainContacts (N A : Nat) (resp : Nat → Batch)
    (userE userD excelE excelD : List String) : List Contact × Nat :=
  let r := mainContactsTagged N A resp userE userD excelE excelD
  ((r.1.map Prod.fst).take N, r.2)

/-- The result dictionary of `main`.  `successful`/`failed`/`total` come from
`SendEmailWorkFlowV2.main` — external SMTP, abstracted as the `send` oracle —
except on the early return for zero collected contacts, which yields all-zero
counts and an empty `emails_sent` list. -/
structure MainOutcome where
  successful : Nat
  failed : Nat
  total : Nat
  emails_sent : List String
deriving DecidableEq

/-- `main` from the loop exit onward: early all-zero return when nothing was
collected, otherwise trim to `N` and report the send oracle's counts together
with the addresses of the final contacts. -/
def mainRun (N A : Nat) (resp : Nat → Batch)
    (userE userD excelE excelD : List String)
    (send : List Contact → Nat × Nat × Nat) : MainOutcome :=
  let r := mainContactsTagged N A resp userE userD excelE excelD
  let all := r.1.map Prod.fst
  if all.length = 0 then ⟨0, 0, 0, []⟩
  else
    let final := all.take N
    let s := send final
    ⟨s.1, s.2.1, s.2.2, final.map (fun c => c.email_address)⟩

/-! ## EmailFinderUsingClaude.py — `email_score` and the candidate selection
inside `enrichCompaniesWithHunter` -/

/-- Python `s.lower()` (modelled on the ASCII range, which is all the
keyword comparisons below exercise). -/
def pylower (s : String) : String :=
  String.mk (s.data.map Char.toLower)

/-- Python `s.startswith(p)`, on character lists. -/
def listStartsWith : List Char → List Char → Bool
  | _, [] => true
  | [], _ :: _ => false
  | c :: cs, p :: ps => c == p && listStartsWith cs ps

/-- Python `needle in hay` (substring containment), on character lists. -/
def listContainsSub (needle : List Char) : List Char → Bool
  | [] => needle.isEmpty
  | c :: cs => listStartsWith (c :: cs) needle || listContainsSub needle cs

/-- Python `s.startswith(p)`. -/
def strStartsWith (s p : String) : Bool :=
  listStartsWith s.data p.data

/-- Python `needle in hay` for strings. -/
def strContainsSub (hay needle : String) : Bool :=
  listContainsSub needle.data hay.data

/-- Python truthiness of an optional string (`if d.get(k) and ...`):
present and non-empty. -/
def pyTruthy : Option String → Bool
  | some s => !(s == "")
  | none => false

/-- `resume_specific_addresses` from the source. -/
def resume_specific_addresses : List String :=
  ["resume", "resumes", "careers", "jobs", "hiring", "intern", "internships", "talent"]

/-- `role_priority` from the source. -/
def role_priority : List String :=
  ["hr", "recruiting", "talent", "careers", "people"]

/-- One Hunter.io email record, with exactly the fields `email_score` and the
selection loop read (`None` models an absent key). -/
structure EmailRecord where
  value : Option String
  position : Option String
  first_name : Option String
  last_name : Option String
  verification_status : Option String
deriving DecidableEq

/-- `email_score` from the source: +20 once when the lowercased local part
equals or starts with a resume keyword (the loop breaks on the first match);
+10 for **each** role keyword occurring in the lowercased position or in the
lowercased address (no break); +5 when both names are truthy; +3 when the
verification status is `'valid'`. -/
def email_score (r : EmailRecord) : Nat :=
  let position := pylower (r.position.getD "")
  let email := pylower (r.value.getD "")
  let email_local_part := if hasAt email then (pysplit email '@').getD 0 "" else email
  let resumeBonus :=
    if resume_specific_addresses.any
        (fun kw => email_local_part == kw || strStartsWith email_local_part kw)
    then 20 else 0
  let roleBonus :=
    role_priority.foldl
      (fun score role =>
        if strContainsSub position role || strContainsSub email role then score + 10
        else score)
      0
  let nameBonus := if pyTruthy r.first_name && pyTruthy r.last_name then 5 else 0
  let verifiedBonus := if r.verification_status == some "valid" then 3 else 0
  resumeBonus + roleBonus + nameBonus + verifiedBonus

/-- Insert `x` into a list already sorted by strictly descending key, keeping
`x` before every element of equal key (stability: `x` comes from earlier in
the input). -/
def insertDesc (key : EmailRecord → Nat) (x : EmailRecord) :
    List EmailRecord → List EmailRecord
  | [] => [x]
  | y :: ys => if key y > key x then y :: insertDesc key x ys else x :: y :: ys

/-- Stable descending sort by key — the behaviour Python's
`sorted(key=email_score, reverse=True)` guarantees (CPython's sort is stable,
and `reverse=True` preserves the original order of equal keys). -/
def sortDescStable (key : EmailRecord → Nat) : List EmailRecord → List EmailRecord
  | [] => []
  | x :: xs => insertDesc key x (sortDescStable key xs)

/-- The selection made by `enrichCompaniesWithHunter`: `sorted_emails[:1]`,
i.e. the head of the stable descending sort by `email_score`. -/
def selectBest (emails_data : List EmailRecord) : Option EmailRecord :=
  (sortDescStable email_score emails_data).head?

/-! ## EmailFinderUsingClaude.py — the response decoder of
`askClaudeToFindCompanies` (lines 133–168)

`json.loads` is abstracted as an oracle `parse : String → Option PyJson`
(`none` models `json.JSONDecodeError`); the fence stripping and the shape
validation after it are translated from the source. -/

/-- A parsed Python JSON value. -/
inductive PyJson where
  | null
  | bool (b : Bool)
  | num (n : Int)
  | str (s : String)
  | arr (items : List PyJson)
  | obj (fields : List (String × PyJson))

/-- Python `s.strip()`: drop whitespace from both ends. -/
def pystrip (s : String) : String :=
  String.mk (((s.data.dropWhile Char.isWhitespace).reverse.dropWhile Char.isWhitespace).reverse)

/-- Python `s[n:]`. -/
def dropLeftStr (s : String) (n : Nat) : String :=
  String.mk (s.data.drop n)

/-- Python `s[:-n]` (for `n ≤ len(s)`, which every use below guarantees). -/
def dropRightStr (s : String) (n : Nat) : String :=
  String.mk (s.data.take (s.data.length - n))

/-- Python `s.endswith(p)`. -/
def strEndsWith (s p : String) : Bool :=
  listStartsWith s.data.reverse p.data.reverse

/-- Lines 137–144 of the source: strip, remove a leading ```` ```json ```` or
```` ``` ```` fence, remove a trailing ```` ``` ```` fence, strip again. -/
def stripFences (s : String) : String :=
  let cleaned := pystrip s
  let cleaned1 :=
    if strStartsWith cleaned "```json" then dropLeftStr cleaned 7
    else if strStartsWith cleaned "```" then dropLeftStr cleaned 3
    else cleaned
  let cleaned2 :=
    if strEndsWith cleaned1 "```" then dropRightStr cleaned1 3 else cleaned1
  pystrip cleaned2

/-- The exceptions the decoder can raise. -/
inductive DecodeErr where
  | jsonDecodeErr
  | notList
  | notDict (i : Nat)
  | missingCompanyName (i : Nat)
  | missingDomain (i : Nat)
deriving DecidableEq

/-- Python `k in d` for an object's field list. -/
def pyHasKey (fields : List (String × PyJson)) (k : String) : Bool :=
  fields.any (fun kv => kv.1 == k)

/-- The element-validation loop (lines 158–166): first failure wins. -/
def validateCompanies : Nat → List PyJson → Option DecodeErr
  | _, [] => none
  | i, item :: rest =>
    match item with
    | .obj fields =>
      if !(pyHasKey fields "company_name") then some (.missingCompanyName i)
      else if !(pyHasKey fields "domain") then some (.missingDomain i)
      else validateCompanies (i + 1) rest
    | _ => some (.notDict i)

/-- An element is a dict holding both required keys. -/
def isCompanyObj : PyJson → Bool
  | .obj fields => pyHasKey fields "company_name" && pyHasKey fields "domain"
  | _ => false

/-- `askClaudeToFindCompanies` from the response text onward: strip fences,
parse, demand a list, validate every element, return the parsed list. -/
def askClaudeDecode (parse : String → Option PyJson) (response_text : String) :
    Except DecodeErr (List PyJson) :=
  let cleaned := stripFences response_text
  match parse cleaned with
  | none => .error .jsonDecodeErr
  | some v =>
    match v with
    | .arr companies =>
      match validateCompanies 0 companies with
      | some e => .error e
      | none => .ok companies
    | _ => .error .notList

/-! ## SimpleEmailer.py — `send_bulk_emails`

`send_single_email` performs SMTP I/O; it is abstracted as an oracle
`sendOk : Nat → Email → Bool` giving the outcome of the attempt at each list
position.  The returned trace lists every recipient an attempt was made for,
in order (a ghost observation of the calls to `send_single_email`);
`time.sleep` has no observable effect in this model. -/

/-- `SimpleEmailer.Email`. -/
structure Email where
  recipient_email : String
  subject : String
  body : String
  attachment_path : Option String
deriving DecidableEq

/-- The results dictionary `{success, failure, total}`. -/
structure BulkResult where
  success : Nat
  failure : Nat
  total : Nat
deriving DecidableEq

/-- The `for i, email in enumerate(emails)` loop with its two counters and
the ghost trace of attempted recipients (accumulated reversed). -/
def send_bulk_aux (sendOk : Nat → Email → Bool) :
    List Email → Nat → Nat → Nat → List String → Nat × Nat × List String
  | [], _, s, f, log => (s, f, log.reverse)
  | e :: rest, i, s, f, log =>
    if sendOk i e then send_bulk_aux sendOk rest (i + 1) (s + 1) f (e.recipient_email :: log)
    else send_bulk_aux sendOk rest (i + 1) s (f + 1) (e.recipient_email :: log)

/-- `send_bulk_emails`: run the loop from zero counters and report
`{success, failure, total := len(emails)}` with the attempt trace. -/
def send_bulk_emails (sendOk : Nat → Email → Bool) (emails : List Email) :
    BulkResult × List String :=
  let r := send_bulk_aux sendOk emails 0 0 0 []
  (⟨r.1, r.2.1, emails.length⟩, r.2.2)

/-! ## models.py — `User.get_contacted_domains`

`get_emails_sent` parses the stored JSON history; its parsed result is the
`emails` input here.  The Python `set` under construction is modelled as a
list queried only through membership. -/

/-- `get_contacted_domains`: for every stored address containing `'@'`,
record `email.split('@')[1]`; addresses without `'@'` are skipped. -/
def get_contacted_domains (emails : List String) : List String :=
  emails.foldl
    (fun domains email =>
      if hasAt email then pySeg1 email :: domains else domains)
    []

/-! ## Concrete oracle inputs used by counterexamples and witnesses -/

/-- Scenario oracle for C7: every attempt discovers one company and enriches
it into one fresh contact whose domain is unique to the attempt. -/
def respOnePerBatch : Nat → Batch := fun k =>
  ⟨[⟨"c", "d"⟩], [⟨"c", none, "a@d" ++ toString k ++ ".com"⟩]⟩

/-- Oracle whose single batch enriches into two contacts sharing the fresh
domain `d.com`. -/
def respSharedDomain : Nat → Batch := fun _ =>
  ⟨[⟨"x", "d.com"⟩, ⟨"y", "d.com"⟩],
   [⟨"x", none, "a@d.com"⟩, ⟨"y", none, "b@d.com"⟩]⟩

/-- Oracle whose single batch enriches into one contact whose address holds
two `'@'` characters. -/
def respTwoAts : Nat → Batch := fun _ =>
  ⟨[⟨"x", "b"⟩], [⟨"x", none, "a@b@c"⟩]⟩

/-- Oracle returning no companies at all. -/
def respEmpty : Nat → Batch := fun _ => ⟨[], []⟩

/-- Oracle whose first attempt enriches into the contact `a@` and whose later
attempts enrich into `b@`: both addresses end in `'@'`, so both have the
empty split domain, which the session-domain set never records. -/
def respTrailingAt : Nat → Batch := fun k =>
  ⟨[⟨"x", "d"⟩], [⟨"x", none, if k = 1 then "a@" else "b@"⟩]⟩

/-- Two email records with identical scoring attributes (score 0 each), used
to exercise the selection tie-break: this is the earlier-listed one. -/
def recTie1 : EmailRecord := ⟨some "aa@x.com", none, none, none, none⟩

/-- The later-listed of the two tied records. -/
def recTie2 : EmailRecord := ⟨some "bb@x.com", none, none, none, none⟩

/-! # Theorems -/

/-! ## Lemmas about the filter -/

theorem hasAt_iff (s : String) : hasAt s = true ↔ '@' ∈ s.data := by
  simp [hasAt, List.any_eq_true]

theorem is_email_okay_iff (email : String) (domains : List String) :
    is_email_okay_to_send email domains = true ↔
      (hasAt email = true ∧ pySeg1 email ∉ domains) := by
  unfold is_email_okay_to_send
  by_cases h : hasAt email
  · simp [h, List.contains, List.elem_iff]
  · simp [h]

theorem filter_contacts_foldl (contacts : List Contact)
    (uD : List String) (acc : List Contact) :
    contacts.foldl
      (fun cleaned contact =>
        if is_email_okay_to_send contact.email_address uD then
          cleaned ++ [contact]
        else cleaned) acc
      = acc ++ contacts.filter (fun c => is_email_okay_to_send c.email_address uD) := by
  induction contacts generalizing acc with
  | nil => simp
  | cons c cs ih =>
    by_cases h : is_email_okay_to_send c.email_address uD
    · simp [h, ih]
    · simp [h, ih]

theorem filter_contacts_eq_filter (contacts : List Contact) (uE uD : List String) :
    filter_contacts contacts uE uD
      = contacts.filter (fun c => is_email_okay_to_send c.email_address uD) := by
  unfold filter_contacts
  simpa using filter_contacts_foldl contacts uD []

theorem is_email_okay_eq_decide (email : String) (domains : List String) :
    is_email_okay_to_send email domains
      = decide ('@' ∈ email.data ∧ pySeg1 email ∉ domains) := by
  by_cases h : ('@' ∈ email.data ∧ pySeg1 email ∉ domains)
  · simp only [h, decide_True]
    exact (is_email_okay_iff email domains).mpr ⟨(hasAt_iff email).mpr h.1, h.2⟩
  · simp only [h, decide_False]
    rw [Bool.eq_false_iff]
    intro hc
    rcases (is_email_okay_iff email domains).mp hc with ⟨h1, h2⟩
    exact h ⟨(hasAt_iff email).mp h1, h2⟩

theorem mem_filter_contacts_okay (contacts : List Contact) (uE D : List String)
    (c : Contact) (hc : c ∈ filter_contacts contacts uE D) :
    hasAt c.email_address = true ∧ pySeg1 c.email_address ∉ D := by
  rw [filter_contacts_eq_filter] at hc
  exact (is_email_okay_iff _ _).mp (List.mem_filter.mp hc).2

/-! ## Claim theorems: the filter (C2, C3) -/

/-- C2: `filter_contacts C ∅ D` admits a contact `c` iff `'@'` occurs in its
email address and `c.email_address.split('@')[1]` is not in `D`; admitted
contacts appear in the output in their input order, unchanged — i.e. the
function is exactly `List.filter` with that predicate. -/
theorem C2_filter_contacts_spec (contacts : List Contact)
    (user_emails : List String) (D : List String) :
    filter_contacts contacts user_emails D
      = contacts.filter
          (fun c => decide ('@' ∈ c.email_address.data ∧ pySeg1 c.email_address ∉ D)) := by
  rw [filter_contacts_eq_filter]
  exact List.filter_congr (fun c hc => is_email_okay_eq_decide c.email_address D)

/-- C3 counterexample: the claim demands admission only for addresses with
exactly one `'@'`, but the code admits `"a@b@c"` (two `'@'`s) against the
empty forbidden set. -/
theorem C3_counterexample :
    is_email_okay_to_send "a@b@c" [] = true ∧ countAt "a@b@c" ≠ 1 := by decide

/-- C3 amended: the filter admits iff the address contains at least one `'@'`
and `email.split('@')[1]` (the segment between the first and second `'@'`, or
everything after the `'@'` when there is exactly one) is not forbidden.  The
function is total by construction (the claim's "never raises"). -/
theorem C3_amended_filter_rule (email : String) (domains : List String) :
    is_email_okay_to_send email domains = true ↔
      ('@' ∈ email.data ∧ pySeg1 email ∉ domains) := by
  rw [is_email_okay_iff]
  constructor
  · rintro ⟨h1, h2⟩
    exact ⟨(hasAt_iff email).mp h1, h2⟩
  · rintro ⟨h1, h2⟩
    exact ⟨(hasAt_iff email).mpr h1, h2⟩

/-! ## Claim theorems: contacted-domain history (C9) -/

theorem get_contacted_domains_foldl (emails : List String) :
    ∀ (acc : List String) (d : String),
      (d ∈ emails.foldl
          (fun domains email =>
            if hasAt email then pySeg1 email :: domains else domains) acc
        ↔ d ∈ acc ∨ d ∈ (emails.filter (fun e => hasAt e)).map pySeg1) := by
  induction emails with
  | nil => intro acc d; simp
  | cons e es ih =>
    intro acc d
    by_cases h : hasAt e
    · simp only [List.foldl_cons, h, if_pos, List.filter_cons_of_pos, List.map_cons,
        List.mem_cons]
      rw [ih]
      simp only [List.mem_cons]
      tauto
    · simp only [List.foldl_cons, h, if_neg, Bool.false_eq_true, not_false_iff,
        List.filter_cons_of_neg]
      exact ih acc d

/-- C9 counterexample: for the stored address `"a@b@c"` the code records the
split segment `"b"`, not the substring after the first `'@'` (`"b@c"`), so
the claimed set equality fails. -/
theorem C9_counterexample :
    get_contacted_domains ["a@b@c"] = ["b"] ∧
    suffixAfterFirstAt "a@b@c" = "b@c" ∧
    "b@c" ∉ get_contacted_domains ["a@b@c"] := by decide

/-- C9 amended: the derived contacted-domain set equals, as a set,
`{ e.split('@')[1] | e ∈ emails, '@' in e }` — the split segment of every
stored address that contains an `'@'`; addresses without `'@'` are skipped. -/
theorem C9_amended_domains (emails : List String) (d : String) :
    d ∈ get_contacted_domains emails ↔
      d ∈ (emails.filter (fun e => hasAt e)).map pySeg1 := by
  unfold get_contacted_domains
  simpa using get_contacted_domains_foldl emails [] d

/-! ## Claim theorems: bulk delivery (C8) -/

theorem send_bulk_aux_trace (sendOk : Nat → Email → Bool) (emails : List Email) :
    ∀ (i s f : Nat) (log : List String),
      (send_bulk_aux sendOk emails i s f log).2.2
        = log.reverse ++ emails.map (fun e => e.recipient_email) := by
  induction emails with
  | nil => intro i s f log; simp [send_bulk_aux]
  | cons e rest ih =>
    intro i s f log
    by_cases h : sendOk i e
    · simp [send_bulk_aux, h, ih]
    · simp [send_bulk_aux, h, ih]

theorem send_bulk_aux_counts (sendOk : Nat → Email → Bool) (emails : List Email) :
    ∀ (i s f : Nat) (log : List String),
      (send_bulk_aux sendOk emails i s f log).1
          + (send_bulk_aux sendOk emails i s f log).2.1
        = s + f + emails.length := by
  induction emails with
  | nil => intro i s f log; simp [send_bulk_aux]
  | cons e rest ih =>
    intro i s f log
    by_cases h : sendOk i e
    · simp only [send_bulk_aux, h, if_pos]
      rw [ih]
      simp only [List.length_cons]
      omega
    · simp only [send_bulk_aux, h, Bool.false_eq_true, if_neg, not_false_iff]
      rw [ih]
      simp only [List.length_cons]
      omega

/-- C8: bulk delivery attempts every message in list order whatever the
per-message outcomes are (the attempt trace is exactly the recipient list),
and reports `total = len(emails)` with `success + failure = total`. -/
theorem C8_send_bulk_spec (sendOk : Nat → Email → Bool) (emails : List Email) :
    (send_bulk_emails sendOk emails).2 = emails.map (fun e => e.recipient_email) ∧
    (send_bulk_emails sendOk emails).1.total = emails.length ∧
    (send_bulk_emails sendOk emails).1.success + (send_bulk_emails sendOk emails).1.failure
      = emails.length := by
  refine ⟨?_, rfl, ?_⟩
  · simpa using send_bulk_aux_trace sendOk emails 0 0 0 []
  · simpa using send_bulk_aux_counts sendOk emails 0 0 0 []

/-! ## Claim theorems: the company-discovery decoder (C5) -/

theorem validateCompanies_none_iff (items : List PyJson) :
    ∀ i, validateCompanies i items = none ↔ items.all isCompanyObj = true := by
  induction items with
  | nil => intro i; simp [validateCompanies]
  | cons item rest ih =>
    intro i
    cases item with
    | obj fields =>
      by_cases h1 : pyHasKey fields "company_name"
      · by_cases h2 : pyHasKey fields "domain"
        · simp [validateCompanies, h1, h2, ih, isCompanyObj, List.all_cons]
        · simp [validateCompanies, h1, h2, isCompanyObj, List.all_cons]
      · simp [validateCompanies, h1, isCompanyObj, List.all_cons]
    | null => simp [validateCompanies, isCompanyObj, List.all_cons]
    | bool b => simp [validateCompanies, isCompanyObj, List.all_cons]
    | num n => simp [validateCompanies, isCompanyObj, List.all_cons]
    | str s => simp [validateCompanies, isCompanyObj, List.all_cons]
    | arr l => simp [validateCompanies, isCompanyObj, List.all_cons]

/-- C5: the decoder strips the code fences (definition `stripFences`, the
translation of lines 137–144), hands the result to the JSON parser, and
succeeds returning exactly the parsed list iff the parse produced a list
every element of which is an object with both required keys; it raises in
every other case — parse failure, non-list value, non-dict element, or a
missing `company_name`/`domain` key. -/
theorem C5_decode_spec (parse : String → Option PyJson) (s : String) :
    (∀ items, askClaudeDecode parse s = .ok items ↔
        parse (stripFences s) = some (.arr items) ∧ items.all isCompanyObj = true) ∧
    ((∃ e, askClaudeDecode parse s = .error e) ↔
        ¬ ∃ items, parse (stripFences s) = some (.arr items)
            ∧ items.all isCompanyObj = true) := by
  have hmain : ∀ items, askClaudeDecode parse s = .ok items ↔
      parse (stripFences s) = some (.arr items) ∧ items.all isCompanyObj = true := by
    intro items
    unfold askClaudeDecode
    cases hp : parse (stripFences s) with
    | none => simp [hp]
    | some v =>
      simp only [hp]
      cases v with
      | arr companies =>
        cases hv : validateCompanies 0 companies with
        | none =>
          simp only [hv, Except.ok.injEq, Option.some.injEq, PyJson.arr.injEq]
          constructor
          · rintro rfl
            exact ⟨rfl, (validateCompanies_none_iff companies 0).mp hv⟩
          · rintro ⟨rfl, _⟩
            rfl
        | some e =>
          simp only [hv, Option.some.injEq, PyJson.arr.injEq]
          constructor
          · intro h
            exact Except.noConfusion h
          · rintro ⟨rfl, hall⟩
            rw [(validateCompanies_none_iff companies 0).mpr hall] at hv
            cases hv
      | null => simp
      | bool b => simp
      | num n => simp
      | str t => simp
      | obj fields => simp
  refine ⟨hmain, ?_⟩
  constructor
  · rintro ⟨e, he⟩ ⟨items, h1, h2⟩
    rw [(hmain items).mpr ⟨h1, h2⟩] at he
    exact Except.noConfusion he
  · intro hno
    cases hd : askClaudeDecode parse s with
    | error e => exact ⟨e, rfl⟩
    | ok items => exact absurd ⟨items, (hmain items).mp hd⟩ hno

/-! ## Claim theorems: enrichment selection (C4) -/

theorem insertDesc_length (key : EmailRecord → Nat) (x : EmailRecord) :
    ∀ l : List EmailRecord, (insertDesc key x l).length = l.length + 1 := by
  intro l
  induction l with
  | nil => rfl
  | cons y ys ih =>
    by_cases h : key y > key x
    · simp [insertDesc, h, ih]
    · simp [insertDesc, h]

theorem sortDescStable_length (key : EmailRecord → Nat) :
    ∀ l : List EmailRecord, (sortDescStable key l).length = l.length := by
  intro l
  induction l with
  | nil => rfl
  | cons x xs ih => simp [sortDescStable, insertDesc_length, ih]

/-- C4: the selection `sorted(emails, key=email_score, reverse=True)[:1]`
returns a record of maximal `email_score`, and among the maximal ones the one
at the earliest position of the upstream response list. -/
theorem C4_selection_argmax (l : List EmailRecord) (r : EmailRecord)
    (h : selectBest l = some r) :
    (∀ x ∈ l, email_score x ≤ email_score r) ∧
    ∃ i, l.get? i = some r ∧
      ∀ j x, j < i → l.get? j = some x → email_score x < email_score r := by
  induction l generalizing r with
  | nil => simp [selectBest, sortDescStable] at h
  | cons a as ih =>
    rcases hs : sortDescStable email_score as with _ | ⟨b, bs⟩
    · have has : as = [] := by
        have hlen := sortDescStable_length email_score as
        rw [hs] at hlen
        exact List.length_eq_zero.mp hlen.symm
      subst has
      have hra : a = r := by
        simpa [selectBest, sortDescStable, insertDesc] using h
      subst hra
      refine ⟨?_, 0, rfl, ?_⟩
      · intro x hx
        have : x = a := by simpa using hx
        subst this
        exact le_refl _
      · intro j x hj hx
        omega
    · have hb : selectBest as = some b := by simp [selectBest, hs]
      rcases ih b hb with ⟨hmax, i, hi, hlt⟩
      by_cases hgt : email_score b > email_score a
      · have hrb : b = r := by
          simpa [selectBest, sortDescStable, hs, insertDesc, hgt] using h
        subst hrb
        refine ⟨?_, i + 1, ?_, ?_⟩
        · intro x hx
          rcases List.mem_cons.mp hx with hx1 | hx2
          · subst hx1
            exact le_of_lt hgt
          · exact hmax x hx2
        · simpa using hi
        · intro j x hj hx
          cases j with
          | zero =>
            have hxa : a = x := by simpa using hx
            subst hxa
            exact hgt
          | succ j2 =>
            have hj2 : j2 < i := by omega
            exact hlt j2 x hj2 (by simpa using hx)
      · have hra : a = r := by
          simpa [selectBest, sortDescStable, hs, insertDesc, hgt] using h
        subst hra
        refine ⟨?_, 0, rfl, ?_⟩
        · intro x hx
          rcases List.mem_cons.mp hx with hx1 | hx2
          · subst hx1
            exact le_refl _
          · exact le_trans (hmax x hx2) (not_lt.mp hgt)
        · intro j x hj hx
          omega

/-- C4 witness: on a two-element tie, the earlier record is selected and is
maximal, with index 0. -/
theorem C4_selection_argmax_witness :
    (∀ x ∈ [recTie1, recTie2], email_score x ≤ email_score recTie1) ∧
    ∃ i, [recTie1, recTie2].get? i = some recTie1 ∧
      ∀ j x, j < i → [recTie1, recTie2].get? j = some x →
        email_score x < email_score recTie1 :=
  C4_selection_argmax [recTie1, recTie2] recTie1 (by decide)

/-! ## Lemmas about the acquisition loop -/

theorem addContacts_mem (N a : Nat) :
    ∀ (cs : List Contact) (st : SessionState) (p : Contact × Nat),
      p ∈ (addContacts N a cs st).collected → p ∈ st.collected ∨ p.1 ∈ cs := by
  intro cs
  induction cs with
  | nil =>
    intro st p hp
    exact Or.inl hp
  | cons c rest ih =>
    intro st p hp
    by_cases hN : st.collected.length ≥ N
    · simp only [addContacts, hN, if_true] at hp
      exact Or.inl hp
    · simp only [addContacts, hN, if_false] at hp
      rcases ih _ p hp with h1 | h1
      · simp only [List.mem_append, List.mem_singleton] at h1
        rcases h1 with h2 | h2
        · exact Or.inl h2
        · right
          rw [h2]
          exact List.mem_cons_self c rest
      · exact Or.inr (List.mem_cons_of_mem c h1)

theorem loopAux_mem (N : Nat) (resp : Nat → Batch) (uE uD : List String) :
    ∀ (fuel attempt : Nat) (st : SessionState) (p : Contact × Nat),
      p ∈ (loopAux N resp uE uD fuel attempt st).1.collected →
      p ∈ st.collected ∨
        (hasAt p.1.email_address = true ∧ pySeg1 p.1.email_address ∉ uD) := by
  intro fuel
  induction fuel with
  | zero =>
    intro attempt st p hp
    exact Or.inl hp
  | succ n ih =>
    intro attempt st p hp
    simp only [loopAux] at hp
    split_ifs at hp with h1 h2 h3 h4 h5
    · exact Or.inl hp
    · exact ih _ _ p hp
    · exact ih _ _ p hp
    · rcases addContacts_mem N (attempt + 1) _ st p hp with hm | hm
      · exact Or.inl hm
      · rcases mem_filter_contacts_okay _ _ _ _ hm with ⟨ha, hd⟩
        exact Or.inr ⟨ha, fun hmem => hd (List.mem_append_left _ hmem)⟩
    · rcases ih _ _ p hp with hm | hm
      · rcases addContacts_mem N (attempt + 1) _ st p hm with hm2 | hm2
        · exact Or.inl hm2
        · rcases mem_filter_contacts_okay _ _ _ _ hm2 with ⟨ha, hd⟩
          exact Or.inr ⟨ha, fun hmem => hd (List.mem_append_left _ hmem)⟩
      · exact Or.inr hm
    · exact Or.inl hp

/-! ## Claim theorems: the acquisition loop (C1, C6, C7) -/

/-- C1 counterexample: with initial history domains `{"b@c"}` and a batch
enriched to the single contact `a@b@c`, the loop returns that contact even
though its domain in the claim's sense — the substring after the first `'@'`,
namely `"b@c"` — is in the initial history-domain set (the code compares
`split('@')[1] = "b"` instead). -/
theorem C1_counterexample :
    (mainContacts 1 1 respTwoAts [] ["b@c"] [] []).1 = [⟨"x", none, "a@b@c"⟩] ∧
    suffixAfterFirstAt "a@b@c" = "b@c" ∧
    "b@c" ∈ (["b@c"] : List String) := by decide

/-- C1 amended: for every target `N`, attempt bound, history sets and oracle
responses, the loop returns at most `N` contacts, every returned contact's
address contains `'@'`, and its domain computed as `email.split('@')[1]` (the
segment between the first and second `'@'`) is absent from the initial
history-domain set (user history and legacy Excel history alike). -/
theorem C1_amended_loop_bound (N A : Nat) (resp : Nat → Batch)
    (userE userD excelE excelD : List String) :
    (mainContacts N A resp userE userD excelE excelD).1.length ≤ N ∧
    ∀ c ∈ (mainContacts N A resp userE userD excelE excelD).1,
      hasAt c.email_address = true ∧
        pySeg1 c.email_address ∉ userD ++ excelD := by
  constructor
  · simp only [mainContacts]
    exact List.length_take_le N _
  · intro c hc
    simp only [mainContacts, mainContactsTagged] at hc
    have hc2 := List.take_subset N _ hc
    rcases List.mem_map.mp hc2 with ⟨p, hp, hpc⟩
    rcases loopAux_mem N resp (userE ++ excelE) (userD ++ excelD) A 0 ⟨[], [], []⟩ p hp
      with hm | hm
    · simp at hm
    · rw [← hpc]
      exact hm

/-- C6: whenever the loop body observes an empty company list it returns at
once — consuming exactly the one attempt it is in, never the remaining
budget — and when that happens on the very first attempt, `main` takes the
early exit with all-zero result counts and an empty sent list. -/
theorem C6_empty_companies_abort :
    (∀ (N : Nat) (resp : Nat → Batch) (uE uD : List String)
        (fuel attempt : Nat) (st : SessionState),
        st.collected.length < N → (resp (attempt + 1)).companies = [] →
        loopAux N resp uE uD (fuel + 1) attempt st = (st, attempt + 1)) ∧
    (∀ (A N : Nat) (resp : Nat → Batch) (userE userD excelE excelD : List String)
        (send : List Contact → Nat × Nat × Nat),
        1 ≤ A → 1 ≤ N → (resp 1).companies = [] →
        mainRun N A resp userE userD excelE excelD send = ⟨0, 0, 0, []⟩ ∧
        (mainContactsTagged N A resp userE userD excelE excelD).2 = 1) := by
  have habort : ∀ (N : Nat) (resp : Nat → Batch) (uE uD : List String)
      (fuel attempt : Nat) (st : SessionState),
      st.collected.length < N → (resp (attempt + 1)).companies = [] →
      loopAux N resp uE uD (fuel + 1) attempt st = (st, attempt + 1) := by
    intro N resp uE uD fuel attempt st hlt hemp
    simp only [loopAux, hlt, if_true, hemp, List.length_nil, if_pos]
  refine ⟨habort, ?_⟩
  intro A N resp userE userD excelE excelD send hA hN hemp
  obtain ⟨A2, rfl⟩ : ∃ A2, A = A2 + 1 := ⟨A - 1, by omega⟩
  have hloop : loopAux N resp (userE ++ excelE) (userD ++ excelD) (A2 + 1) 0
      ⟨[], [], []⟩ = (⟨[], [], []⟩, 1) := by
    have := habort N resp (userE ++ excelE) (userD ++ excelD) A2 0 ⟨[], [], []⟩
      (by simpa using hN) hemp
    simpa using this
  constructor
  · simp [mainRun, mainContactsTagged, hloop]
  · simp [mainContactsTagged, hloop]

/-- C6 witness: the abort equation and the all-zero outcome at a concrete
oracle that discovers no companies. -/
theorem C6_empty_companies_abort_witness :
    loopAux 1 respEmpty [] [] 1 0 ⟨[], [], []⟩ = (⟨[], [], []⟩, 1) ∧
    mainRun 1 3 respEmpty [] [] [] [] (fun _ => (0, 0, 0)) = ⟨0, 0, 0, []⟩ :=
  ⟨C6_empty_companies_abort.1 1 respEmpty [] [] 0 0 ⟨[], [], []⟩ (by decide) rfl,
   (C6_empty_companies_abort.2 3 1 respEmpty [] [] [] [] (fun _ => (0, 0, 0))
      (by decide) (by decide) rfl).1⟩

/-- C7: the loop's final attempt counter never exceeds the starting counter
plus the remaining budget — so a run from `attempt = 0` performs at most
`max_attempts` iterations (termination itself is structural: the budget
strictly decreases) — and in the scenario `N = 3`, `max_attempts = 2` with
every batch contributing exactly one new unique contact, the run stops after
exactly 2 attempts holding exactly 2 contacts. -/
theorem C7_attempts_bounded_and_scenario :
    (∀ (N : Nat) (resp : Nat → Batch) (uE uD : List String)
        (fuel attempt : Nat) (st : SessionState),
        (loopAux N resp uE uD fuel attempt st).2 ≤ attempt + fuel) ∧
    ((mainContactsTagged 3 2 respOnePerBatch [] [] [] []).2 = 2 ∧
     (mainContacts 3 2 respOnePerBatch [] [] [] []).1.length = 2) := by
  constructor
  · intro N resp uE uD fuel
    induction fuel with
    | zero =>
      intro attempt st
      simp [loopAux]
    | succ n ih =>
      intro attempt st
      simp only [loopAux]
      split_ifs with h1 h2 h3 h4 h5
      · omega
      · have := ih (attempt + 1) st
        omega
      · have := ih (attempt + 1) st
        omega
      · omega
      · have := ih (attempt + 1)
          (addContacts N (attempt + 1)
            (filter_contacts (resp (attempt + 1)).contacts (uE ++ st.sessE)
              (uD ++ st.sessD)) st)
        omega
      · omega
  · exact ⟨by decide, by decide⟩

/-! ## Claim theorems: cross-iteration domain uniqueness (C10)

The invariant carried through the loop: (i) every collected contact has an
`'@'` in its address, its split domain — when non-empty, since `if domain:`
skips the empty string — is recorded in the session-domain set, and its ghost
tag is at most the current attempt; (ii) contacts with distinct tags and a
non-empty split domain on the first have distinct split domains.  A batch is
filtered against the session-domain snapshot, so its admitted contacts'
non-empty domains differ from every previously collected contact's domain —
but not from each other's, and empty domains are never recorded at all. -/

theorem addContacts_inv (N a : Nat) (D0 : List String) :
    ∀ (cs : List Contact) (st : SessionState),
      (∀ c ∈ cs, hasAt c.email_address = true ∧ pySeg1 c.email_address ∉ D0) →
      (∀ p ∈ st.collected, hasAt p.1.email_address = true ∧
          (pySeg1 p.1.email_address ≠ "" → pySeg1 p.1.email_address ∈ st.sessD) ∧
          p.2 ≤ a) →
      (∀ p ∈ st.collected, ∀ q ∈ st.collected,
          p.2 ≠ q.2 → pySeg1 p.1.email_address ≠ "" →
          pySeg1 p.1.email_address ≠ pySeg1 q.1.email_address) →
      (∀ p ∈ st.collected, p.2 ≠ a → pySeg1 p.1.email_address ≠ "" →
          pySeg1 p.1.email_address ∈ D0) →
      (∀ d ∈ D0, d ∈ st.sessD) →
      ((∀ p ∈ (addContacts N a cs st).collected, hasAt p.1.email_address = true ∧
          (pySeg1 p.1.email_address ≠ "" →
            pySeg1 p.1.email_address ∈ (addContacts N a cs st).sessD) ∧ p.2 ≤ a) ∧
       (∀ p ∈ (addContacts N a cs st).collected,
          ∀ q ∈ (addContacts N a cs st).collected,
          p.2 ≠ q.2 → pySeg1 p.1.email_address ≠ "" →
          pySeg1 p.1.email_address ≠ pySeg1 q.1.email_address) ∧
       (∀ p ∈ (addContacts N a cs st).collected, p.2 ≠ a →
          pySeg1 p.1.email_address ≠ "" → pySeg1 p.1.email_address ∈ D0) ∧
       (∀ d ∈ D0, d ∈ (addContacts N a cs st).sessD)) := by
  intro cs
  induction cs with
  | nil =>
    intro st hcs h1 h2 h3 h4
    exact ⟨h1, h2, h3, h4⟩
  | cons c rest ih =>
    intro st hcs h1 h2 h3 h4
    have hcA : hasAt c.email_address = true := (hcs c (List.mem_cons_self c rest)).1
    have hcD0 : pySeg1 c.email_address ∉ D0 := (hcs c (List.mem_cons_self c rest)).2
    by_cases hN : st.collected.length ≥ N
    · simp only [addContacts, hN, if_true]
      exact ⟨h1, h2, h3, h4⟩
    · have hsub : ∀ d ∈ st.sessD,
          d ∈ (if hasAt c.email_address && !(pySeg1 c.email_address == "") then
                pySeg1 c.email_address :: st.sessD
              else st.sessD) := by
        intro d hd
        by_cases hcond :
            (hasAt c.email_address && !(pySeg1 c.email_address == "")) = true
        · rw [if_pos hcond]
          exact List.mem_cons_of_mem _ hd
        · rw [if_neg hcond]
          exact hd
      have hself : pySeg1 c.email_address ≠ "" →
          pySeg1 c.email_address
            ∈ (if hasAt c.email_address && !(pySeg1 c.email_address == "") then
                pySeg1 c.email_address :: st.sessD
              else st.sessD) := by
        intro hne
        have hcond :
            (hasAt c.email_address && !(pySeg1 c.email_address == "")) = true := by
          rw [hcA]
          simp [hne]
        rw [if_pos hcond]
        exact List.mem_cons_self _ _
      simp only [addContacts, hN, if_false]
      refine ih _ ?_ ?_ ?_ ?_ ?_
      · intro x hx
        exact hcs x (List.mem_cons_of_mem c hx)
      · intro p hp
        rcases List.mem_append.mp hp with hp1 | hp1
        · rcases h1 p hp1 with ⟨ha, hd, ht⟩
          exact ⟨ha, fun hne => hsub _ (hd hne), ht⟩
        · have hpc : p = (c, a) := by simpa using hp1
          subst hpc
          exact ⟨hcA, fun hne => hself hne, le_refl a⟩
      · intro p hp q hq hne hpe
        rcases List.mem_append.mp hp with hp1 | hp1 <;>
          rcases List.mem_append.mp hq with hq1 | hq1
        · exact h2 p hp1 q hq1 hne hpe
        · have hqc : q = (c, a) := by simpa using hq1
          subst hqc
          have hpD0 := h3 p hp1 hne hpe
          intro heq
          exact hcD0 (heq ▸ hpD0)
        · have hpc : p = (c, a) := by simpa using hp1
          subst hpc
          have hqa : q.2 ≠ a := fun hh => hne hh.symm
          by_cases hqe : pySeg1 q.1.email_address = ""
          · intro heq
            rw [hqe] at heq
            exact hpe heq
          · have hqD0 := h3 q hq1 hqa hqe
            intro heq
            exact hcD0 (by rw [heq]; exact hqD0)
        · have hpc : p = (c, a) := by simpa using hp1
          have hqc : q = (c, a) := by simpa using hq1
          subst hpc
          subst hqc
          exact absurd rfl hne
      · intro p hp hpa hpe
        rcases List.mem_append.mp hp with hp1 | hp1
        · exact h3 p hp1 hpa hpe
        · have hpc : p = (c, a) := by simpa using hp1
          subst hpc
          exact absurd rfl hpa
      · intro d hd
        exact hsub d (h4 d hd)

theorem loopAux_inv (N : Nat) (resp : Nat → Batch) (uE uD : List String) :
    ∀ (fuel attempt : Nat) (st : SessionState),
      (∀ p ∈ st.collected, hasAt p.1.email_address = true ∧
          (pySeg1 p.1.email_address ≠ "" → pySeg1 p.1.email_address ∈ st.sessD) ∧
          p.2 ≤ attempt) →
      (∀ p ∈ st.collected, ∀ q ∈ st.collected,
          p.2 ≠ q.2 → pySeg1 p.1.email_address ≠ "" →
          pySeg1 p.1.email_address ≠ pySeg1 q.1.email_address) →
      (∀ p ∈ (loopAux N resp uE uD fuel attempt st).1.collected,
         ∀ q ∈ (loopAux N resp uE uD fuel attempt st).1.collected,
         p.2 ≠ q.2 → pySeg1 p.1.email_address ≠ "" →
         pySeg1 p.1.email_address ≠ pySeg1 q.1.email_address) := by
  intro fuel
  induction fuel with
  | zero =>
    intro attempt st h1 h2
    exact h2
  | succ n ih =>
    intro attempt st h1 h2
    simp only [loopAux]
    split_ifs with hg h2c h3c h4c h5c
    · exact h2
    · exact ih (attempt + 1) st
        (fun p hp => ⟨(h1 p hp).1, (h1 p hp).2.1, le_trans (h1 p hp).2.2 (by omega)⟩) h2
    · exact ih (attempt + 1) st
        (fun p hp => ⟨(h1 p hp).1, (h1 p hp).2.1, le_trans (h1 p hp).2.2 (by omega)⟩) h2
    · -- return (addContacts ..., attempt + 1): invariants from addContacts_inv
      have hadd := addContacts_inv N (attempt + 1) st.sessD
        (filter_contacts (resp (attempt + 1)).contacts (uE ++ st.sessE)
          (uD ++ st.sessD)) st
        (fun c hc => by
          rcases mem_filter_contacts_okay _ _ _ _ hc with ⟨ha, hd⟩
          exact ⟨ha, fun hmem => hd (List.mem_append_right _ hmem)⟩)
        (fun p hp => ⟨(h1 p hp).1, (h1 p hp).2.1, le_trans (h1 p hp).2.2 (by omega)⟩)
        h2
        (fun p hp hpa hpe => (h1 p hp).2.1 hpe)
        (fun d hd => hd)
      exact hadd.2.1
    · -- recurse from the extended state
      have hadd := addContacts_inv N (attempt + 1) st.sessD
        (filter_contacts (resp (attempt + 1)).contacts (uE ++ st.sessE)
          (uD ++ st.sessD)) st
        (fun c hc => by
          rcases mem_filter_contacts_okay _ _ _ _ hc with ⟨ha, hd⟩
          exact ⟨ha, fun hmem => hd (List.mem_append_right _ hmem)⟩)
        (fun p hp => ⟨(h1 p hp).1, (h1 p hp).2.1, le_trans (h1 p hp).2.2 (by omega)⟩)
        h2
        (fun p hp hpa hpe => (h1 p hp).2.1 hpe)
        (fun d hd => hd)
      exact ih (attempt + 1) _ hadd.1 hadd.2.1
    · exact h2

/-- C10 counterexample: the claimed universal cross-iteration distinctness
fails on addresses ending in `'@'`: the `if domain:` guard never records the
empty split domain, so the loop admits `a@` on attempt 1 and `b@` on attempt
2, two contacts from different iterations sharing the split domain `""`. -/
theorem C10_counterexample :
    (mainContactsTagged 2 2 respTrailingAt [] [] [] []).1
      = [(⟨"x", none, "a@"⟩, 1), (⟨"x", none, "b@"⟩, 2)] ∧
    pySeg1 "a@" = pySeg1 "b@" := by decide

/-- C10 amended: contacts admitted on different loop iterations carry
distinct split domains whenever the first one's split domain is non-empty
(empty domains are skipped by the `if domain:` guard and may repeat across
iterations); and a single enrichment batch holding two contacts of one fresh
domain is admitted whole — the loop then returns two contacts sharing a
domain. -/
theorem C10_amended_domain_uniqueness :
    (∀ (N A : Nat) (resp : Nat → Batch) (userE userD excelE excelD : List String)
        (c1 c2 : Contact) (t1 t2 : Nat),
        (c1, t1) ∈ (mainContactsTagged N A resp userE userD excelE excelD).1 →
        (c2, t2) ∈ (mainContactsTagged N A resp userE userD excelE excelD).1 →
        t1 ≠ t2 → pySeg1 c1.email_address ≠ "" →
        pySeg1 c1.email_address ≠ pySeg1 c2.email_address) ∧
    ((mainContacts 2 1 respSharedDomain [] [] [] []).1
        = [⟨"x", none, "a@d.com"⟩, ⟨"y", none, "b@d.com"⟩] ∧
     pySeg1 "a@d.com" = pySeg1 "b@d.com") := by
  constructor
  · intro N A resp userE userD excelE excelD c1 c2 t1 t2 h1 h2 hne hne2
    simp only [mainContactsTagged] at h1 h2
    exact loopAux_inv N resp (userE ++ excelE) (userD ++ excelD) A 0 ⟨[], [], []⟩
      (by simp) (by simp) (c1, t1) h1 (c2, t2) h2 hne hne2
  · exact ⟨by decide, by decide⟩

/-- C10 witness: two contacts collected on attempts 1 and 2, the first with
the non-empty split domain `d1.com`, have distinct split domains. -/
theorem C10_amended_domain_uniqueness_witness :
    pySeg1 "a@d1.com" ≠ pySeg1 "a@d2.com" :=
  C10_amended_domain_uniqueness.1 3 2 respOnePerBatch [] [] [] []
    ⟨"c", none, "a@d1.com"⟩ ⟨"c", none, "a@d2.com"⟩ 1 2
    (by decide) (by decide) (by decide) (by decide)

end AiApply
